import Mathlib

/-!
Verification of the Vartalap landing-site repository.

This file shallowly embeds the behaviourally relevant parts of the
repository: the logical cubelet-index bookkeeping of the animated 3x3x3
hero cube (`hero-cube` component), the layer attach / bake step of its
scripted 90-degree turns, the per-frame turn state machine, the
pointer-driven target-orientation quaternion computation, the
redirect decisions of the Home and ComingSoon pages, the click handlers
of the button components, and the teardown of the cube effect.
-/

namespace Vartalap

/-! ## Cube logical indices (`userData = { i, j, k }`) -/

/-- Logical coordinates of one cubelet, the `userData = { i, j, k }`
record attached to each mesh in `HeroCube`. -/
structure Idx where
  i : Int
  j : Int
  k : Int
deriving DecidableEq, Repr

/-- The three turn axes `'x' | 'y' | 'z'`. -/
inductive Axis where
  | x
  | y
  | z
deriving DecidableEq, Repr

/-- The logical coordinate of a cubelet along an axis
(`c.userData.i` / `.j` / `.k`). -/
def coord : Axis → Idx → Int
  | .x, c => c.i
  | .y, c => c.j
  | .z, c => c.k

/-- The layer-membership test used by both `attachLayer` and
`bakeAndUpdateIndices`:
`(a === 'x' && c.userData.i === l) || (a === 'y' && ...) || ...`. -/
def inLayer (a : Axis) (l : Int) (c : Idx) : Bool :=
  coord a c == l

/-- The `rot` closure of `bakeAndUpdateIndices`: the index relabeling
applied to a cubelet of the turned layer after a 90-degree turn.
`clockwise` is the `dir` value (`1` or `-1`), tested with `clockwise > 0`. -/
def rotIdx (a : Axis) (clockwise : Int) (v : Idx) : Idx :=
  match a with
  | .x => { i := v.i
            j := if clockwise > 0 then -v.k else v.k
            k := if clockwise > 0 then v.j else -v.j }
  | .y => { i := if clockwise > 0 then v.k else -v.k
            j := v.j
            k := if clockwise > 0 then -v.i else v.i }
  | .z => { i := if clockwise > 0 then -v.j else v.j
            j := if clockwise > 0 then v.i else -v.i
            k := v.k }

/-- The effect of `bakeAndUpdateIndices(a, l, clockwise)` on the logical
indices of the cubelet list: every cubelet in layer `l` of axis `a` gets
`rot` applied to its `userData`; all other cubelets are untouched. -/
def bakeAndUpdateIndices (a : Axis) (l : Int) (clockwise : Int)
    (cs : List Idx) : List Idx :=
  cs.map fun c => if inLayer a l c then rotIdx a clockwise c else c

/-- The 27 initial `userData` triples, in the order produced by the
construction loop `for i in -1..1, for j in -1..1, for k in -1..1`. -/
def all27 : List Idx :=
  ([-1, 0, 1] : List Int).flatMap fun i =>
    ([-1, 0, 1] : List Int).flatMap fun j =>
      ([-1, 0, 1] : List Int).map fun k => ⟨i, j, k⟩

/-- The right-handed 90-degree grid rotation about an axis, as the spec
describes it: about `x` with `dir = +1`, `(i, j, k)` maps to
`(i, -k, j)`; the other five cases are the matching right-handed
rotations (`dir = -1` is the inverse of `dir = +1`). -/
def specRot (a : Axis) (dir : Int) (v : Idx) : Idx :=
  match a, dir with
  | .x, 1 => ⟨v.i, -v.k, v.j⟩
  | .x, _ => ⟨v.i, v.k, -v.j⟩
  | .y, 1 => ⟨v.k, v.j, -v.i⟩
  | .y, _ => ⟨-v.k, v.j, v.i⟩
  | .z, 1 => ⟨-v.j, v.i, v.k⟩
  | .z, _ => ⟨v.j, -v.i, v.k⟩

/-- A whole scripted-turn history applied to the index list. -/
def applyTurns (turns : List (Axis × Int × Int)) (cs : List Idx) : List Idx :=
  turns.foldl (fun s t => bakeAndUpdateIndices t.1 t.2.1 t.2.2 s) cs

lemma rotIdx_eq_specRot (a : Axis) (d : Int) (hd : d = 1 ∨ d = -1) (v : Idx) :
    rotIdx a d v = specRot a d v := by
  rcases hd with h | h <;> subst h <;> cases a <;> simp [rotIdx, specRot]

/-- C1 as stated over arbitrary index lists. -/
theorem bake_is_grid_rotation (a : Axis) (l : Int) (d : Int)
    (hd : d = 1 ∨ d = -1) (cs : List Idx) :
    bakeAndUpdateIndices a l d cs =
      cs.map (fun c => if coord a c = l then specRot a d c else c) := by
  unfold bakeAndUpdateIndices
  refine List.map_congr_left fun c _ => ?_
  by_cases h : coord a c = l
  · simp [inLayer, h, rotIdx_eq_specRot a d hd]
  · simp [inLayer, h]

/-! ## C2: the indices stay a permutation of the 27 grid triples -/

/-- The per-cubelet update performed by `bakeAndUpdateIndices` on the
`userData` triples. -/
def turnUpd (a : Axis) (l : Int) (d : Int) (c : Idx) : Idx :=
  if inLayer a l c then rotIdx a d c else c

lemma bake_eq_map_turnUpd (a : Axis) (l d : Int) (cs : List Idx) :
    bakeAndUpdateIndices a l d cs = cs.map (turnUpd a l d) := rfl

lemma coord_rotIdx (a : Axis) (d : Int) (v : Idx) :
    coord a (rotIdx a d v) = coord a v := by
  cases a <;> simp [rotIdx, coord]

lemma rotIdx_injective (a : Axis) (d : Int) :
    Function.Injective (rotIdx a d) := by
  intro v w h
  cases v with
  | mk vi vj vk =>
    cases w with
    | mk wi wj wk =>
      cases a <;> by_cases hd : d > 0 <;>
        simp [rotIdx, hd, Idx.mk.injEq] at h ⊢ <;> omega

lemma turnUpd_injective (a : Axis) (l d : Int) :
    Function.Injective (turnUpd a l d) := by
  intro v w h
  unfold turnUpd at h
  by_cases hv : inLayer a l v <;> by_cases hw : inLayer a l w <;>
    simp only [hv, hw, if_pos, if_neg, Bool.not_eq_true] at h
  · exact rotIdx_injective a d h
  · exfalso
    apply hw
    have : coord a w = coord a v := by
      rw [← h, coord_rotIdx]
    simpa [inLayer, this] using hv
  · exfalso
    apply hv
    have : coord a v = coord a w := by
      rw [h, coord_rotIdx]
    simpa [inLayer, this] using hw
  · exact h

lemma mem_all27 {c : Idx} :
    c ∈ all27 ↔
      (c.i = -1 ∨ c.i = 0 ∨ c.i = 1) ∧ (c.j = -1 ∨ c.j = 0 ∨ c.j = 1) ∧
        (c.k = -1 ∨ c.k = 0 ∨ c.k = 1) := by
  cases c with
  | mk i j k =>
    constructor
    · intro h
      simp only [all27, List.mem_flatMap, List.mem_map] at h
      obtain ⟨i', hi, j', hj, k', hk, he⟩ := h
      cases he
      simp only [List.mem_cons, List.not_mem_nil, or_false] at hi hj hk
      exact ⟨hi, hj, hk⟩
    · rintro ⟨hi, hj, hk⟩
      simp only [all27, List.mem_flatMap, List.mem_map]
      refine ⟨i, ?_, j, ?_, k, ?_, rfl⟩ <;>
        simp only [List.mem_cons, List.not_mem_nil, or_false] <;> assumption

lemma turnUpd_mem_all27 (a : Axis) (l d : Int) {c : Idx} (hc : c ∈ all27) :
    turnUpd a l d c ∈ all27 := by
  unfold turnUpd
  by_cases h : inLayer a l c
  · rw [if_pos h]
    rw [mem_all27] at hc ⊢
    obtain ⟨hi, hj, hk⟩ := hc
    cases a <;> by_cases hd : d > 0 <;> simp [rotIdx, hd] <;> omega
  · rw [if_neg h]
    exact hc

lemma all27_nodup : all27.Nodup := by decide

lemma bake_perm_all27 (a : Axis) (l d : Int) {cs : List Idx}
    (h : cs.Perm all27) : (bakeAndUpdateIndices a l d cs).Perm all27 := by
  rw [bake_eq_map_turnUpd]
  have hmap : (cs.map (turnUpd a l d)).Perm (all27.map (turnUpd a l d)) :=
    h.map _
  refine hmap.trans ?_
  have hnd : (all27.map (turnUpd a l d)).Nodup :=
    all27_nodup.map (turnUpd_injective a l d)
  have hsub : all27.map (turnUpd a l d) ⊆ all27 := by
    intro x hx
    rcases List.mem_map.mp hx with ⟨c, hc, rfl⟩
    exact turnUpd_mem_all27 a l d hc
  refine (List.subperm_of_subset hnd hsub).perm_of_length_le ?_
  simp

lemma applyTurns_perm_all27 (turns : List (Axis × Int × Int)) :
    ∀ cs : List Idx, cs.Perm all27 → (applyTurns turns cs).Perm all27 := by
  induction turns with
  | nil => intro cs h; exact h
  | cons t ts ih =>
    intro cs h
    exact ih _ (bake_perm_all27 t.1 t.2.1 t.2.2 h)

/-- C2: after the construction loop the 27 `userData` triples are exactly
the grid `{-1,0,1}^3` without repetition, and any sequence of
`bakeAndUpdateIndices` calls (any axis, layer and direction) keeps the
list of triples a permutation of that grid. -/
theorem cubelet_indices_always_a_permutation
    (turns : List (Axis × Int × Int)) :
    (applyTurns turns all27).Perm all27 ∧ all27.Nodup ∧
      ∀ c : Idx, c ∈ all27 ↔
        (c.i = -1 ∨ c.i = 0 ∨ c.i = 1) ∧ (c.j = -1 ∨ c.j = 0 ∨ c.j = 1) ∧
          (c.k = -1 ∨ c.k = 0 ∨ c.k = 1) :=
  ⟨applyTurns_perm_all27 turns all27 (List.Perm.refl _), all27_nodup,
    fun _ => mem_all27⟩

/-- Witness for C1 at axis `x`, layer `1`, direction `1`. -/
theorem bake_is_grid_rotation_witness :
    ((1 : Int) = 1 ∨ (1 : Int) = -1) ∧
      bakeAndUpdateIndices .x 1 1 all27 =
        all27.map (fun c => if coord .x c = 1 then specRot .x 1 c else c) :=
  ⟨Or.inl rfl, bake_is_grid_rotation .x 1 1 (Or.inl rfl) all27⟩

/-! ## C7: `attachLayer` -/

/-- Where a cubelet mesh currently lives in the scene graph: under the
cube's `root` group or under the temporary `turnGroup`. -/
inductive Parent where
  | root
  | turnGroup
deriving DecidableEq, Repr

/-- Net effect of `attachLayer(a, l)` on the parent assignment of the
cubelets: every previously attached cubelet is first returned to the
root (the `while (turnGroup.children.length)` loop), then exactly the
cubelets whose stored logical coordinate along `a` equals `l` are
attached to the turn group (the `forEach` with the layer test). -/
def attachLayer (a : Axis) (l : Int) (cs : List (Idx × Parent)) :
    List (Idx × Parent) :=
  cs.map fun cp =>
    (cp.1, if inLayer a l cp.1 then Parent.turnGroup else Parent.root)

/-- C7: after `attachLayer(a, l)` a cubelet is under the turn group iff
its logical coordinate along `a` equals `l`; and when the stored triples
are a permutation of the grid and `l` is a real layer, exactly 9
cubelets are attached. -/
theorem attachLayer_selects_exactly_layer (a : Axis) (l : Int)
    (cs : List (Idx × Parent))
    (hperm : (cs.map Prod.fst).Perm all27) (hl : l = -1 ∨ l = 0 ∨ l = 1) :
    (∀ cp ∈ attachLayer a l cs,
        cp.2 = Parent.turnGroup ↔ coord a cp.1 = l) ∧
      ((attachLayer a l cs).filter
          (fun cp => cp.2 == Parent.turnGroup)).length = 9 := by
  constructor
  · intro cp hcp
    rcases List.mem_map.mp hcp with ⟨c, _, rfl⟩
    by_cases h : inLayer a l c.1
    · simp only [h, if_pos]
      simpa [inLayer] using h
    · simp only [h, if_neg, Bool.not_eq_true]
      constructor
      · intro hcon
        simp at hcon
      · intro hco
        exact absurd (by simpa [inLayer] using hco) h
  · have hfil :
        ((attachLayer a l cs).filter
            (fun cp => cp.2 == Parent.turnGroup)).length =
          (cs.map Prod.fst).countP (inLayer a l) := by
      rw [← List.countP_eq_length_filter]
      unfold attachLayer
      rw [List.countP_map, List.countP_map]
      refine List.countP_congr fun c _ => ?_
      by_cases h : inLayer a l c.1 <;> simp [Function.comp, h]
    rw [hfil, hperm.countP_eq]
    rcases hl with h | h | h <;> subst h <;> cases a <;> decide

/-- Witness for C7 at axis `x`, layer `0`, with all cubelets at root. -/
theorem attachLayer_selects_exactly_layer_witness :
    ((((all27.map fun c => (c, Parent.root)).map Prod.fst).Perm all27) ∧
        ((0 : Int) = -1 ∨ (0 : Int) = 0 ∨ (0 : Int) = 1)) ∧
      ((attachLayer .x 0 (all27.map fun c => (c, Parent.root))).filter
          (fun cp => cp.2 == Parent.turnGroup)).length = 9 := by
  have hp : ((all27.map fun c => (c, Parent.root)).map Prod.fst).Perm all27 :=
    List.Perm.of_eq (by decide)
  have hl : (0 : Int) = -1 ∨ (0 : Int) = 0 ∨ (0 : Int) = 1 :=
    Or.inr (Or.inl rfl)
  exact ⟨⟨hp, hl⟩,
    (attachLayer_selects_exactly_layer .x 0 _ hp hl).2⟩

/-! ## C3: session-based redirects of the Home and ComingSoon pages -/

/-- The `session.user` object: only the fields the pages read
(`name`, `image`; both may be absent). -/
structure User where
  name : Option String
  image : Option String
deriving DecidableEq, Repr

/-- The session object returned by `auth()`: it may be absent, and its
`user` field may be absent (`session?.user`). -/
structure Session where
  user : Option User
deriving DecidableEq, Repr

/-- Truthiness of `session?.user`. -/
def hasUser (s : Option Session) : Bool :=
  (s.bind Session.user).isSome

/-- The parts of the ComingSoon markup that depend on the session: the
avatar `src` (`session.user.image ?? "/placeholder-avatar.png"`), the
avatar `alt` (`session.user.name ?? "User"`) and the displayed
`session.user.name`. -/
structure ComingSoonBody where
  avatarSrc : String
  avatarAlt : String
  displayName : Option String
deriving DecidableEq, Repr

/-- What a page request produces: a redirect or a rendered view. -/
inductive PageView where
  | redirect (url : String)
  | landing
  | comingSoonPage (body : ComingSoonBody)
deriving DecidableEq, Repr

/-- `Home` from `src/app/page.tsx`: redirect to `/home` when
`session?.user` is present, otherwise render the (static) landing
page. -/
def Home (s : Option Session) : PageView :=
  if hasUser s then .redirect "/home" else .landing

/-- `ComingSoon`: redirect to `/` when `session?.user` is absent,
otherwise render the page, which shows the user's avatar and name. -/
def ComingSoon (s : Option Session) : PageView :=
  match s.bind Session.user with
  | none => .redirect "/"
  | some u =>
      .comingSoonPage
        ⟨u.image.getD "/placeholder-avatar.png", u.name.getD "User", u.name⟩

/-- C3 counterexample to "the session is consumed only to test presence
or absence of a user": two sessions that agree on user presence produce
different ComingSoon pages. -/
theorem session_presence_only_counterexample :
    hasUser (some ⟨some ⟨some "A", none⟩⟩) =
        hasUser (some ⟨some ⟨some "B", none⟩⟩) ∧
      ComingSoon (some ⟨some ⟨some "A", none⟩⟩) ≠
        ComingSoon (some ⟨some ⟨some "B", none⟩⟩) := by
  decide

/-- C3 amended: both redirect decisions are exactly as claimed, and the
Home page consumes the session only through user presence; the
ComingSoon page, however, additionally renders the user's name and
image. -/
theorem pages_redirect_on_session_presence (s : Option Session) :
    (Home s = .redirect "/home" ↔ hasUser s = true) ∧
      (hasUser s = false → Home s = .landing) ∧
      (ComingSoon s = .redirect "/" ↔ hasUser s = false) ∧
      (hasUser s = true → ∃ b, ComingSoon s = .comingSoonPage b) ∧
      (∀ s₂, hasUser s = hasUser s₂ → Home s = Home s₂) := by
  have hcs : ∀ s' : Option Session, hasUser s' = true →
      ∃ b, ComingSoon s' = .comingSoonPage b := by
    intro s' h
    unfold hasUser at h
    unfold ComingSoon
    rcases hu : s'.bind Session.user with _ | u
    · rw [hu] at h
      simp at h
    · exact ⟨_, rfl⟩
  refine ⟨?_, ?_, ?_, hcs s, ?_⟩
  · unfold Home
    by_cases h : hasUser s <;> simp [h]
  · intro h
    unfold Home
    simp [h]
  · unfold ComingSoon hasUser
    rcases hu : s.bind Session.user with _ | u <;> simp
  · intro s₂ h
    unfold Home
    rw [h]

/-- Witness for C3 (amended): a session with a user is redirected by
Home, and a missing session is redirected by ComingSoon. -/
theorem pages_redirect_witness :
    Home (some ⟨some ⟨none, none⟩⟩) = .redirect "/home" ∧
      ComingSoon none = .redirect "/" :=
  ⟨(pages_redirect_on_session_presence (some ⟨some ⟨none, none⟩⟩)).1.mpr
      (by decide),
    (pages_redirect_on_session_presence none).2.2.1.mpr (by decide)⟩

/-! ## C4 / C5: button click handlers and their loading flags -/

/-- The five button components of the repository. -/
inductive ButtonComp where
  | getStarted
  | signInB
  | watchDemo
  | notifyMe
  | signOutB
deriving DecidableEq, Repr

/-- How the awaited `signOut(...)` call ends. -/
inductive SignOutResult where
  | ok
  | err
deriving DecidableEq, Repr

/-- One state-affecting effect performed by a click handler. -/
inductive Eff where
  | setLoading (v : Bool)
  | setNotified (v : Bool)
  | logSignOutError
deriving DecidableEq, Repr

/-- An effect together with the time (ms after the click) at which the
handler performs it. -/
structure Ev where
  time : Nat
  eff : Eff
deriving DecidableEq, Repr

/-- The effect traces of the click handlers:
`GetStartedButton` and `SignInButton` only set the flag
(navigation is left to the `Link`); `WatchDemoButton` resets after
2000 ms; `NotifyMeButton` resets after 1500 ms and toggles `isNotified`;
`SignOutButton` resets and logs only in its `catch` branch (`t` is the
time at which the awaited `signOut` settles). -/
def clickEffects : ButtonComp → SignOutResult → Nat → List Ev
  | .getStarted, _, _ => [⟨0, .setLoading true⟩]
  | .signInB, _, _ => [⟨0, .setLoading true⟩]
  | .watchDemo, _, _ => [⟨0, .setLoading true⟩, ⟨2000, .setLoading false⟩]
  | .notifyMe, _, _ =>
      [⟨0, .setLoading true⟩, ⟨1500, .setLoading false⟩,
        ⟨1500, .setNotified true⟩, ⟨4500, .setNotified false⟩]
  | .signOutB, .ok, _ => [⟨0, .setLoading true⟩]
  | .signOutB, .err, t =>
      [⟨0, .setLoading true⟩, ⟨t, .setLoading false⟩, ⟨t, .logSignOutError⟩]

/-- The click handler sets the loading flag. -/
def setsLoadingTrue (tr : List Ev) : Prop :=
  ∃ e ∈ tr, e.eff = .setLoading true

/-- The click handler (its own logic) later resets the loading flag. -/
def resetsLoading (tr : List Ev) : Prop :=
  ∃ e ∈ tr, e.eff = .setLoading false

/-- The click handler logs the sign-out error. -/
def logsError (tr : List Ev) : Prop :=
  ∃ e ∈ tr, e.eff = .logSignOutError

/-- C4 counterexample: `GetStartedButton` sets the loading flag on click
but its own logic never resets it. -/
theorem loading_always_reset_counterexample :
    setsLoadingTrue (clickEffects .getStarted .ok 0) ∧
      ¬ resetsLoading (clickEffects .getStarted .ok 0) := by
  constructor
  · exact ⟨⟨0, .setLoading true⟩, by simp [clickEffects], rfl⟩
  · intro ⟨e, he, hf⟩
    simp [clickEffects] at he
    subst he
    simp at hf

/-- C4 amended: only `WatchDemoButton` and `NotifyMeButton` always reset
the loading flag (by timeout); `GetStartedButton` and `SignInButton`
never reset it; `SignOutButton` resets it exactly when `signOut`
throws. -/
theorem loading_reset_characterization (r : SignOutResult) (t : Nat) :
    resetsLoading (clickEffects .watchDemo r t) ∧
      resetsLoading (clickEffects .notifyMe r t) ∧
      ¬ resetsLoading (clickEffects .getStarted r t) ∧
      ¬ resetsLoading (clickEffects .signInB r t) ∧
      (resetsLoading (clickEffects .signOutB r t) ↔ r = .err) := by
  cases r <;> simp [clickEffects, resetsLoading]

/-- Witness for C4 (amended) at `r = err`, `t = 5`. -/
theorem loading_reset_characterization_witness :
    resetsLoading (clickEffects .watchDemo .err 5) ∧
      resetsLoading (clickEffects .notifyMe .err 5) ∧
      ¬ resetsLoading (clickEffects .getStarted .err 5) ∧
      ¬ resetsLoading (clickEffects .signInB .err 5) ∧
      (resetsLoading (clickEffects .signOutB .err 5) ↔
        SignOutResult.err = .err) :=
  loading_reset_characterization .err 5

/-- C5: when `signOut` throws, the handler resets the flag and logs the
error; when it does not throw, the handler neither resets nor logs; and
no component other than `SignOutButton` ever produces the error-handling
effect. -/
theorem signout_error_handling (t : Nat) :
    resetsLoading (clickEffects .signOutB .err t) ∧
      logsError (clickEffects .signOutB .err t) ∧
      ¬ resetsLoading (clickEffects .signOutB .ok t) ∧
      ¬ logsError (clickEffects .signOutB .ok t) ∧
      ∀ b r t₂, logsError (clickEffects b r t₂) →
        b = .signOutB ∧ r = .err := by
  refine ⟨?_, ?_, ?_, ?_, ?_⟩
  · simp [clickEffects, resetsLoading]
  · simp [clickEffects, logsError]
  · simp [clickEffects, resetsLoading]
  · simp [clickEffects, logsError]
  · intro b r t₂ h
    cases b <;> cases r <;> simp [clickEffects, logsError] at h ⊢

/-- Witness for C5 at `t = 7`, discharging the inner hypothesis at the
`signOut`/`err` trace. -/
theorem signout_error_handling_witness :
    resetsLoading (clickEffects .signOutB .err 7) ∧
      (ButtonComp.signOutB = .signOutB ∧ SignOutResult.err = .err) :=
  ⟨(signout_error_handling 7).1,
    (signout_error_handling 7).2.2.2.2 .signOutB .err 3
      ⟨⟨3, .logSignOutError⟩, by simp [clickEffects], rfl⟩⟩

/-! ## C10: the NotifyMeButton state machine -/

/-- The two timeout callbacks of `NotifyMeButton`: the 1500 ms one
(clear loading, set notified, schedule the next) and the 3000 ms one
(clear notified). -/
inductive NTimer where
  | finishLoading
  | clearNotified
deriving DecidableEq, Repr

/-- Component state of `NotifyMeButton`: the two flags plus the
currently scheduled timeouts (delay in ms, callback). -/
structure NState where
  isLoading : Bool
  isNotified : Bool
  pending : List (Nat × NTimer)
deriving DecidableEq, Repr

/-- UI events: a pointer click, or the firing of a scheduled timeout. -/
inductive NEvent where
  | click
  | fire (e : Nat × NTimer)
deriving DecidableEq, Repr

/-- One event step of `NotifyMeButton`. A click does nothing when the
notified view is shown (that view has no `onClick`) or while loading
(the button is `disabled`); otherwise `handleNotifyMe` sets the loading
flag and schedules the 1500 ms timeout. A timeout can fire only while
scheduled; the 1500 ms callback clears loading, sets notified and
schedules the 3000 ms timeout, which clears notified. -/
def nStep (s : NState) : NEvent → Option NState
  | .click =>
      if s.isNotified then none
      else if s.isLoading then none
      else some ⟨true, s.isNotified, (1500, .finishLoading) :: s.pending⟩
  | .fire e =>
      if e ∈ s.pending then
        match e.2 with
        | .finishLoading =>
            some ⟨false, true, s.pending.erase e ++ [(3000, .clearNotified)]⟩
        | .clearNotified => some ⟨s.isLoading, false, s.pending.erase e⟩
      else none

/-- The idle state the component mounts in. -/
def nInit : NState := ⟨false, false, []⟩

/-- States reachable from the mounted component. -/
inductive NReach : NState → Prop where
  | init : NReach nInit
  | step {s : NState} {e : NEvent} {s' : NState} :
      NReach s → nStep s e = some s' → NReach s'

/-- The loading state entered by a click. -/
def nLoading : NState := ⟨true, false, [(1500, .finishLoading)]⟩

/-- The notified state entered by the 1500 ms timeout. -/
def nNotified : NState := ⟨false, true, [(3000, .clearNotified)]⟩

lemma nreach_classify {s : NState} (h : NReach s) :
    s = nInit ∨ s = nLoading ∨ s = nNotified := by
  induction h with
  | init => exact Or.inl rfl
  | @step s e s' _ hstep ih =>
    rcases ih with rfl | rfl | rfl
    · cases e with
      | click =>
        simp [nStep, nInit] at hstep
        exact Or.inr (Or.inl hstep.symm)
      | fire ev =>
        simp [nStep, nInit] at hstep
    · cases e with
      | click => simp [nStep, nLoading] at hstep
      | fire ev =>
        by_cases hev : ev ∈ nLoading.pending
        · have hev' : ev = (1500, NTimer.finishLoading) := by
            simpa [nLoading] using hev
          subst hev'
          simp [nStep, nLoading, List.erase] at hstep
          exact Or.inr (Or.inr hstep.symm)
        · simp [nStep, hev] at hstep
    · cases e with
      | click => simp [nStep, nNotified] at hstep
      | fire ev =>
        by_cases hev : ev ∈ nNotified.pending
        · have hev' : ev = (3000, NTimer.clearNotified) := by
            simpa [nNotified] using hev
          subst hev'
          simp [nStep, nNotified, List.erase] at hstep
          exact Or.inl hstep.symm
        · simp [nStep, hev] at hstep

/-- C10: the component follows the cycle
idle → (click) → loading → (1500 ms) → notified → (3000 ms) → idle;
a click is ignored while loading (the button is disabled), and no
reachable state has both flags set. -/
theorem notify_me_state_machine :
    nStep nInit .click = some nLoading ∧
      nStep nLoading (.fire (1500, .finishLoading)) = some nNotified ∧
      nStep nNotified (.fire (3000, .clearNotified)) = some nInit ∧
      (∀ s : NState, s.isLoading = true → nStep s .click = none) ∧
      (∀ s : NState, NReach s →
        ¬(s.isLoading = true ∧ s.isNotified = true)) := by
  refine ⟨rfl, ?_, ?_, ?_, ?_⟩
  · simp [nStep, nLoading, nNotified, List.erase]
  · simp [nStep, nNotified, nInit, List.erase]
  · intro s h
    cases hn : s.isNotified <;> simp [nStep, h, hn]
  · intro s h
    rcases nreach_classify h with rfl | rfl | rfl <;> simp [nInit, nLoading, nNotified]

/-- Witness for C10: the loading state is reachable (by one click) and
satisfies the invariant; clicking in it is ignored. -/
theorem notify_me_state_machine_witness :
    ¬(nLoading.isLoading = true ∧ nLoading.isNotified = true) ∧
      nStep nLoading .click = none :=
  ⟨notify_me_state_machine.2.2.2.2 nLoading
      (NReach.step NReach.init notify_me_state_machine.1),
    notify_me_state_machine.2.2.2.1 nLoading rfl⟩

/-! ## C6: every scripted turn completes at exactly 90 degrees -/

/-- Euler rotation of the `turnGroup` (`turnGroup.rotation`). -/
structure Rot3 where
  x : ℝ
  y : ℝ
  z : ℝ

/-- Read the rotation component about an axis. -/
def getAxisRot (r : Rot3) : Axis → ℝ
  | .x => r.x
  | .y => r.y
  | .z => r.z

/-- `setAxisRotation(obj, a, value)`. -/
def setAxisRot (r : Rot3) (a : Axis) (v : ℝ) : Rot3 :=
  match a with
  | .x => { r with x := v }
  | .y => { r with y := v }
  | .z => { r with z := v }

/-- `addAxisRotation(obj, a, delta)`. -/
def addAxisRot (r : Rot3) (a : Axis) (d : ℝ) : Rot3 :=
  setAxisRot r a (getAxisRot r a + d)

/-- The mutable scripted-turn state of the animation loop. -/
structure TurnState where
  nextTurnTime : ℝ
  turning : Bool
  turnAxis : Axis
  layer : Int
  angle : ℝ
  dir : ℝ
  rot : Rot3

/-- A call to `bakeAndUpdateIndices`, with the turn group's rotation
about the turn axis at the moment of the call. -/
structure BakeCall where
  axis : Axis
  layer : Int
  dir : ℝ
  rotAtBake : ℝ

/-- The random draws a tick may consume (`pick(axes)`, `pick([-1,0,1])`,
`Math.random() > 0.5`, and the `Math.random()` in the next-turn wait). -/
structure TickRand where
  pickAxis : Axis
  pickLayer : Int
  pickDirPos : Bool
  waitRand : ℝ

open Classical in
/-- The scripted-turn part of the animation-loop body: decrement
`nextTurnTime`; start a turn when idle and due (`attachLayer` zeroes the
turn group's rotation); while turning, advance by
`(π/2 / turnDuration) · dt · dir`, accumulate `|step|` into `angle`, and
on reaching `π/2 - 1e-3` snap the rotation to `(π/2) · dir`, bake
(which ends in `rotation.set(0,0,0)`), set the axis rotation to 0 and
clear the turning flag. Returns the new state and the bake call, if
any. -/
noncomputable def turnTick (rnd : TickRand) (dt : ℝ) (s₀ : TurnState) :
    TurnState × Option BakeCall :=
  let s₁ := { s₀ with nextTurnTime := s₀.nextTurnTime - dt }
  let s₂ :=
    if s₁.turning = false ∧ s₁.nextTurnTime ≤ 0 then
      { s₁ with turning := true, angle := 0, turnAxis := rnd.pickAxis,
                layer := rnd.pickLayer,
                dir := if rnd.pickDirPos then 1 else -1,
                rot := ⟨0, 0, 0⟩ }
    else s₁
  if s₂.turning then
    let step := (Real.pi / 2 / 0.6) * dt * s₂.dir
    let s₃ := { s₂ with angle := s₂.angle + |step|,
                        rot := addAxisRot s₂.rot s₂.turnAxis step }
    if s₃.angle ≥ Real.pi / 2 - 1e-3 then
      let s₄ := { s₃ with
                  rot := setAxisRot s₃.rot s₃.turnAxis
                    ((Real.pi / 2) * s₃.dir) }
      let call : BakeCall :=
        ⟨s₄.turnAxis, s₄.layer, s₄.dir, getAxisRot s₄.rot s₄.turnAxis⟩
      let s₅ := { s₄ with rot := setAxisRot (⟨0, 0, 0⟩ : Rot3) s₄.turnAxis 0 }
      ({ s₅ with turning := false,
                 nextTurnTime := 1.6 + rnd.waitRand * 1.2 }, some call)
    else (s₃, none)
  else (s₂, none)

lemma getAxisRot_setAxisRot (r : Rot3) (a : Axis) (v : ℝ) :
    getAxisRot (setAxisRot r a v) a = v := by
  cases a <;> rfl

lemma setAxisRot_zero (a : Axis) :
    setAxisRot (⟨0, 0, 0⟩ : Rot3) a 0 = ⟨0, 0, 0⟩ := by
  cases a <;> rfl

lemma turnTick_complete_eq (rnd : TickRand) (dt nt ang dr : ℝ) (ax : Axis)
    (ly : Int) (rt : Rot3)
    (hangle : ang + |(Real.pi / 2 / 0.6) * dt * dr| ≥ Real.pi / 2 - 1e-3) :
    turnTick rnd dt ⟨nt, true, ax, ly, ang, dr, rt⟩ =
      (⟨1.6 + rnd.waitRand * 1.2, false, ax, ly,
          ang + |(Real.pi / 2 / 0.6) * dt * dr|, dr, ⟨0, 0, 0⟩⟩,
        some ⟨ax, ly, dr, (Real.pi / 2) * dr⟩) := by
  unfold turnTick
  simp only [Bool.true_eq_false, false_and, if_false, ite_false, if_true,
    ite_true, getAxisRot_setAxisRot, setAxisRot_zero]
  rw [if_pos hangle]

/-- C6: whenever a frame's accumulated angle reaches `π/2` within the
`1e-3` tolerance, the bake is performed with the turn-axis rotation
snapped to exactly `(π/2) · dir`, and afterwards the turn group's
rotation is exactly zero and the turning flag is cleared. -/
theorem turn_completion_snaps_to_quarter (rnd : TickRand) (dt : ℝ)
    (s : TurnState) (hturn : s.turning = true)
    (hangle : s.angle + |(Real.pi / 2 / 0.6) * dt * s.dir| ≥
      Real.pi / 2 - 1e-3) :
    (turnTick rnd dt s).2 =
        some ⟨s.turnAxis, s.layer, s.dir, (Real.pi / 2) * s.dir⟩ ∧
      (turnTick rnd dt s).1.rot = ⟨0, 0, 0⟩ ∧
      (turnTick rnd dt s).1.turning = false := by
  obtain ⟨nt, tng, ax, ly, ang, dr, rt⟩ := s
  cases hturn
  rw [turnTick_complete_eq rnd dt nt ang dr ax ly rt hangle]
  exact ⟨rfl, rfl, rfl⟩

/-- Witness for C6: a turn that was just attached (angle 0) completes in
a single frame of `dt = 0.6` seconds. -/
theorem turn_completion_witness :
    ((⟨5, true, .y, 0, 0, 1, ⟨0, 0, 0⟩⟩ : TurnState).turning = true ∧
        (0 : ℝ) + |(Real.pi / 2 / 0.6) * 0.6 * (1 : ℝ)| ≥
          Real.pi / 2 - 1e-3) ∧
      (turnTick ⟨.x, 0, true, 0⟩ 0.6
          ⟨5, true, .y, 0, 0, 1, ⟨0, 0, 0⟩⟩).2 =
        some ⟨.y, 0, 1, (Real.pi / 2) * 1⟩ ∧
      (turnTick ⟨.x, 0, true, 0⟩ 0.6
          ⟨5, true, .y, 0, 0, 1, ⟨0, 0, 0⟩⟩).1.turning = false := by
  have hstep : ((Real.pi / 2 / 0.6) * 0.6 * (1 : ℝ)) = Real.pi / 2 := by
    rw [mul_one, div_mul_cancel₀ _ (by norm_num : (0.6 : ℝ) ≠ 0)]
  have habs : |(Real.pi / 2 / 0.6) * 0.6 * (1 : ℝ)| = Real.pi / 2 := by
    rw [hstep]
    exact abs_of_nonneg (by positivity)
  have hangle : (0 : ℝ) + |(Real.pi / 2 / 0.6) * 0.6 * (1 : ℝ)| ≥
      Real.pi / 2 - 1e-3 := by
    rw [habs]
    norm_num
  have h := turn_completion_snaps_to_quarter ⟨.x, 0, true, 0⟩ 0.6
    ⟨5, true, .y, 0, 0, 1, ⟨0, 0, 0⟩⟩ rfl hangle
  exact ⟨⟨rfl, hangle⟩, h.1, h.2.2⟩

/-! ## C9: teardown of the HeroCube effect -/

/-- The external state the `HeroCube` effect can touch, plus a field
`pageState` standing for everything else on the page. -/
structure EffectWorld where
  resizeObserved : Bool
  pointerMoveListeners : Nat
  animLoopRunning : Bool
  rendererDisposed : Bool
  pmremDisposed : Bool
  canvasInContainer : Bool
  pageState : Nat
deriving DecidableEq, Repr

/-- The individual calls of the effect's cleanup function. -/
inductive CleanupAct where
  | disconnectRO
  | removePointerMove
  | stopAnimLoop
  | disposeRenderer
  | disposePMREM
  | removeCanvas
deriving DecidableEq, Repr

/-- Semantics of one cleanup call on the external state. -/
def applyAct (w : EffectWorld) : CleanupAct → EffectWorld
  | .disconnectRO => { w with resizeObserved := false }
  | .removePointerMove =>
      { w with pointerMoveListeners := w.pointerMoveListeners - 1 }
  | .stopAnimLoop => { w with animLoopRunning := false }
  | .disposeRenderer => { w with rendererDisposed := true }
  | .disposePMREM => { w with pmremDisposed := true }
  | .removeCanvas => { w with canvasInContainer := false }

/-- The cleanup function returned by the `HeroCube` effect, in source
order: `ro.disconnect()`, `removeEventListener('pointermove', ...)`,
`setAnimationLoop(null)`, `renderer.dispose()`, `pmrem.dispose()`,
`removeChild(renderer.domElement)`. -/
def teardown (w : EffectWorld) : EffectWorld :=
  [CleanupAct.disconnectRO, .removePointerMove, .stopAnimLoop,
    .disposeRenderer, .disposePMREM, .removeCanvas].foldl applyAct w

/-- C9: teardown disconnects the observer, removes the pointermove
listener, stops the loop, disposes renderer and PMREM generator and
removes the canvas — and mutates nothing else (`pageState` is
untouched). -/
theorem teardown_exact_cleanup (w : EffectWorld) :
    teardown w =
      { resizeObserved := false,
        pointerMoveListeners := w.pointerMoveListeners - 1,
        animLoopRunning := false,
        rendererDisposed := true,
        pmremDisposed := true,
        canvasInContainer := false,
        pageState := w.pageState } ∧
      (teardown w).pageState = w.pageState := by
  constructor <;> rfl

/-! ## C8: pointer-driven target orientation -/

/-- A three.js `Vector3`. -/
structure V3 where
  x : ℝ
  y : ℝ
  z : ℝ

/-- A three.js `Quaternion` (`_x, _y, _z, _w`). -/
structure QuatV where
  x : ℝ
  y : ℝ
  z : ℝ
  w : ℝ

def dotV (a b : V3) : ℝ := a.x * b.x + a.y * b.y + a.z * b.z

def addV (a b : V3) : V3 := ⟨a.x + b.x, a.y + b.y, a.z + b.z⟩

def subV (a b : V3) : V3 := ⟨a.x - b.x, a.y - b.y, a.z - b.z⟩

def smulV (c : ℝ) (v : V3) : V3 := ⟨c * v.x, c * v.y, c * v.z⟩

noncomputable def lengthV (v : V3) : ℝ := Real.sqrt (dotV v v)

open Classical in
/-- `Vector3.normalize`: `divideScalar(length || 1)`. -/
noncomputable def normalizeV (v : V3) : V3 :=
  if lengthV v = 0 then v else smulV (1 / lengthV v) v

noncomputable def distanceV (a b : V3) : ℝ := lengthV (subV a b)

def scaleQ (c : ℝ) (qq : QuatV) : QuatV := ⟨c * qq.x, c * qq.y, c * qq.z, c * qq.w⟩

def normSqQ (qq : QuatV) : ℝ :=
  qq.x * qq.x + qq.y * qq.y + qq.z * qq.z + qq.w * qq.w

open Classical in
/-- `Quaternion.normalize`: divide by the length, or the identity
quaternion when the length is zero. -/
noncomputable def normalizeQ (qq : QuatV) : QuatV :=
  if Real.sqrt (normSqQ qq) = 0 then ⟨0, 0, 0, 1⟩
  else scaleQ (1 / Real.sqrt (normSqQ qq)) qq

/-- `Number.EPSILON` = 2^(-52). -/
noncomputable def numberEpsilon : ℝ := 1 / 4503599627370496

/-- The main branch of `Quaternion.setFromUnitVectors`:
`(vFrom × vTo, vFrom ⋅ vTo + 1)` before normalization. -/
def quatBetween (vFrom vTo : V3) : QuatV :=
  ⟨vFrom.y * vTo.z - vFrom.z * vTo.y,
    vFrom.z * vTo.x - vFrom.x * vTo.z,
    vFrom.x * vTo.y - vFrom.y * vTo.x,
    dotV vFrom vTo + 1⟩

open Classical in
/-- The antipodal fallback branch of `setFromUnitVectors`
(`r < Number.EPSILON`). -/
noncomputable def antipodalFallback (vFrom : V3) : QuatV :=
  if |vFrom.x| > |vFrom.z| then ⟨-vFrom.y, vFrom.x, 0, 0⟩
  else ⟨0, -vFrom.z, vFrom.y, 0⟩

open Classical in
/-- `Quaternion.setFromUnitVectors(vFrom, vTo)`. -/
noncomputable def setFromUnitVectors (vFrom vTo : V3) : QuatV :=
  normalizeQ
    (if dotV vFrom vTo + 1 < numberEpsilon then antipodalFallback vFrom
      else quatBetween vFrom vTo)

/-- `Vector3.applyQuaternion(q)`. -/
def applyQuaternion (v : V3) (qq : QuatV) : V3 :=
  let tx := 2 * (qq.y * v.z - qq.z * v.y)
  let ty := 2 * (qq.z * v.x - qq.x * v.z)
  let tz := 2 * (qq.x * v.y - qq.y * v.x)
  ⟨v.x + qq.w * tx + qq.y * tz - qq.z * ty,
    v.y + qq.w * ty + qq.z * tx - qq.x * tz,
    v.z + qq.w * tz + qq.x * ty - qq.y * tx⟩

/-- The cube-corner direction `new Vector3(1, 1, 1).normalize()`. -/
noncomputable def cornerVec : V3 := normalizeV ⟨1, 1, 1⟩

/-- The point at cube-center depth along the pointer ray
(`hit = camera.position + dir * dist`), taking the unprojected
`rayPoint` as input. -/
noncomputable def pointerHit (camPos center rayPoint : V3) : V3 :=
  addV camPos (smulV (distanceV camPos center) (normalizeV (subV rayPoint camPos)))

/-- `desiredDir = (hit - center).normalize()`. -/
noncomputable def desiredDir (camPos center rayPoint : V3) : V3 :=
  normalizeV (subV (pointerHit camPos center rayPoint) center)

/-- `updateOrientationFromPointer`: the target quaternion it stores. -/
noncomputable def updateOrientationFromPointer
    (camPos center rayPoint : V3) : QuatV :=
  setFromUnitVectors cornerVec (desiredDir camPos center rayPoint)

/-- The slerp interpolation factor used each frame:
`Math.min(1, dt * 5)`. -/
noncomputable def slerpFactor (dt : ℝ) : ℝ := min 1 (dt * 5)

lemma dotV_self_nonneg (v : V3) : 0 ≤ dotV v v := by
  obtain ⟨x, y, z⟩ := v
  simp only [dotV]
  nlinarith [sq_nonneg x, sq_nonneg y, sq_nonneg z]

lemma dotV_self_eq_zero {v : V3} (h : dotV v v = 0) : v = ⟨0, 0, 0⟩ := by
  obtain ⟨x, y, z⟩ := v
  simp only [dotV] at h
  have hx : x = 0 := by nlinarith [sq_nonneg x, sq_nonneg y, sq_nonneg z]
  have hy : y = 0 := by nlinarith [sq_nonneg x, sq_nonneg y, sq_nonneg z]
  have hz : z = 0 := by nlinarith [sq_nonneg x, sq_nonneg y, sq_nonneg z]
  simp [hx, hy, hz]

lemma dotV_smulV_self (c : ℝ) (v : V3) :
    dotV (smulV c v) (smulV c v) = c ^ 2 * dotV v v := by
  obtain ⟨x, y, z⟩ := v
  simp only [dotV, smulV]
  ring

lemma dotV_normalize_self (v : V3) (hv : dotV v v ≠ 0) :
    dotV (normalizeV v) (normalizeV v) = 1 := by
  have hpos : 0 < dotV v v := lt_of_le_of_ne (dotV_self_nonneg v) (Ne.symm hv)
  have hl : lengthV v ≠ 0 :=
    ne_of_gt (Real.sqrt_pos.mpr hpos)
  have hsq : lengthV v * lengthV v = dotV v v :=
    Real.mul_self_sqrt (dotV_self_nonneg v)
  unfold normalizeV
  rw [if_neg hl, dotV_smulV_self]
  have h2 : (1 / lengthV v) ^ 2 = 1 / (lengthV v * lengthV v) := by
    ring
  rw [h2, hsq, one_div, inv_mul_cancel₀ hv]

lemma applyQ_normalized (a b : V3) (c : ℝ) (ha : dotV a a = 1)
    (hb : dotV b b = 1) (hc : c ^ 2 * normSqQ (quatBetween a b) = 1) :
    applyQuaternion a (scaleQ c (quatBetween a b)) = b := by
  obtain ⟨p, q, r⟩ := a
  obtain ⟨x, y, z⟩ := b
  simp only [dotV] at ha hb
  simp only [normSqQ, quatBetween, dotV] at hc
  simp only [applyQuaternion, scaleQ, quatBetween, dotV, V3.mk.injEq]
  refine ⟨?_, ?_, ?_⟩
  · linear_combination
      (-(c ^ 2) * (x * x + y * y + z * z) * p +
        c ^ 2 * (2 + 2 * (p * x + q * y + r * z) - (x * x + y * y + z * z))
          * x) * ha +
      (-(c ^ 2) * p - c ^ 2 * x) * hb + (-p + x) * hc
  · linear_combination
      (-(c ^ 2) * (x * x + y * y + z * z) * q +
        c ^ 2 * (2 + 2 * (p * x + q * y + r * z) - (x * x + y * y + z * z))
          * y) * ha +
      (-(c ^ 2) * q - c ^ 2 * y) * hb + (-q + y) * hc
  · linear_combination
      (-(c ^ 2) * (x * x + y * y + z * z) * r +
        c ^ 2 * (2 + 2 * (p * x + q * y + r * z) - (x * x + y * y + z * z))
          * z) * ha +
      (-(c ^ 2) * r - c ^ 2 * z) * hb + (-r + z) * hc

lemma numberEpsilon_pos : (0 : ℝ) < numberEpsilon := by
  unfold numberEpsilon
  norm_num

lemma applyQ_setFromUnitVectors (a b : V3) (ha : dotV a a = 1)
    (hb : dotV b b = 1) (hr : ¬ dotV a b + 1 < numberEpsilon) :
    applyQuaternion a (setFromUnitVectors a b) = b := by
  have hw : 0 < dotV a b + 1 := lt_of_lt_of_le numberEpsilon_pos (not_lt.mp hr)
  have hs : 0 < normSqQ (quatBetween a b) := by
    obtain ⟨p, q, r⟩ := a
    obtain ⟨x, y, z⟩ := b
    simp only [normSqQ, quatBetween, dotV] at hw ⊢
    nlinarith [mul_self_nonneg (q * z - r * y), mul_self_nonneg (r * x - p * z),
      mul_self_nonneg (p * y - q * x), mul_pos hw hw]
  have hl : Real.sqrt (normSqQ (quatBetween a b)) ≠ 0 :=
    ne_of_gt (Real.sqrt_pos.mpr hs)
  unfold setFromUnitVectors
  rw [if_neg hr]
  unfold normalizeQ
  rw [if_neg hl]
  refine applyQ_normalized a b _ ha hb ?_
  rw [one_div, inv_pow, Real.sq_sqrt hs.le]
  exact inv_mul_cancel₀ (ne_of_gt hs)

lemma subV_eq_zero {u v : V3} (h : subV u v = ⟨0, 0, 0⟩) : u = v := by
  obtain ⟨ux, uy, uz⟩ := u
  obtain ⟨vx, vy, vz⟩ := v
  simp only [subV, V3.mk.injEq] at h ⊢
  obtain ⟨h1, h2, h3⟩ := h
  refine ⟨by linarith, by linarith, by linarith⟩

/-- C8: the stored target quaternion rotates the unit corner direction
`(1,1,1)/|(1,1,1)|` exactly onto the unit direction from the cube
center toward the point at cube-center depth along the pointer ray, and
the per-frame slerp factor is `min(1, dt·5)`. -/
theorem target_quat_maps_corner_to_pointer (camPos center rayPoint : V3)
    (hhit : pointerHit camPos center rayPoint ≠ center)
    (hr : ¬ dotV cornerVec (desiredDir camPos center rayPoint) + 1 <
      numberEpsilon) :
    applyQuaternion cornerVec
        (updateOrientationFromPointer camPos center rayPoint) =
        desiredDir camPos center rayPoint ∧
      ∀ dt : ℝ, slerpFactor dt ≤ 1 ∧
        (dt * 5 ≤ 1 → slerpFactor dt = dt * 5) ∧
        (1 ≤ dt * 5 → slerpFactor dt = 1) := by
  constructor
  · have hcorner : dotV cornerVec cornerVec = 1 := by
      have h3 : dotV ⟨1, 1, 1⟩ (⟨1, 1, 1⟩ : V3) ≠ 0 := by
        simp [dotV]
        norm_num
      exact dotV_normalize_self _ h3
    have hdes : dotV (desiredDir camPos center rayPoint)
        (desiredDir camPos center rayPoint) = 1 := by
      unfold desiredDir
      apply dotV_normalize_self
      intro h0
      exact hhit (subV_eq_zero (dotV_self_eq_zero h0))
    exact applyQ_setFromUnitVectors _ _ hcorner hdes hr
  · intro dt
    unfold slerpFactor
    exact ⟨min_le_left _ _, fun h => min_eq_right h, fun h => min_eq_left h⟩

lemma lengthV_001 : lengthV ⟨0, 0, 1⟩ = 1 := by
  unfold lengthV
  rw [show dotV ⟨0, 0, 1⟩ (⟨0, 0, 1⟩ : V3) = 1 by norm_num [dotV]]
  exact Real.sqrt_one

lemma lengthV_002 : lengthV ⟨0, 0, 2⟩ = 2 := by
  unfold lengthV
  rw [show dotV ⟨0, 0, 2⟩ (⟨0, 0, 2⟩ : V3) = 2 ^ 2 by norm_num [dotV]]
  exact Real.sqrt_sq (by norm_num)

lemma lengthV_004 : lengthV ⟨0, 0, 4⟩ = 4 := by
  unfold lengthV
  rw [show dotV ⟨0, 0, 4⟩ (⟨0, 0, 4⟩ : V3) = 4 ^ 2 by norm_num [dotV]]
  exact Real.sqrt_sq (by norm_num)

lemma pointerHit_wit :
    pointerHit ⟨0, 0, 2⟩ ⟨0, 0, 0⟩ ⟨0, 0, 3⟩ = (⟨0, 0, 4⟩ : V3) := by
  unfold pointerHit distanceV
  rw [show subV ⟨0, 0, 3⟩ ⟨0, 0, 2⟩ = (⟨0, 0, 1⟩ : V3) by norm_num [subV],
    show subV ⟨0, 0, 2⟩ ⟨0, 0, 0⟩ = (⟨0, 0, 2⟩ : V3) by norm_num [subV],
    lengthV_002]
  unfold normalizeV
  rw [lengthV_001, if_neg (by norm_num)]
  norm_num [smulV, addV]

lemma desiredDir_wit :
    desiredDir ⟨0, 0, 2⟩ ⟨0, 0, 0⟩ ⟨0, 0, 3⟩ = (⟨0, 0, 1⟩ : V3) := by
  unfold desiredDir
  rw [pointerHit_wit,
    show subV ⟨0, 0, 4⟩ ⟨0, 0, 0⟩ = (⟨0, 0, 4⟩ : V3) by norm_num [subV]]
  unfold normalizeV
  rw [lengthV_004, if_neg (by norm_num)]
  norm_num [smulV]

lemma corner_dot_z : dotV cornerVec ⟨0, 0, 1⟩ = 1 / Real.sqrt 3 := by
  unfold cornerVec normalizeV
  have h3 : lengthV ⟨1, 1, 1⟩ = Real.sqrt 3 := by
    unfold lengthV
    norm_num [dotV]
  rw [h3, if_neg (ne_of_gt (Real.sqrt_pos.mpr (by norm_num)))]
  simp [dotV, smulV]

/-- Witness for C8 with the camera at `(0,0,2)`, the cube center at the
origin and the unprojected ray point at `(0,0,3)`. -/
theorem target_quat_maps_corner_witness :
    (pointerHit ⟨0, 0, 2⟩ ⟨0, 0, 0⟩ ⟨0, 0, 3⟩ ≠ (⟨0, 0, 0⟩ : V3) ∧
        ¬ dotV cornerVec (desiredDir ⟨0, 0, 2⟩ ⟨0, 0, 0⟩ ⟨0, 0, 3⟩) + 1 <
          numberEpsilon) ∧
      applyQuaternion cornerVec
          (updateOrientationFromPointer ⟨0, 0, 2⟩ ⟨0, 0, 0⟩ ⟨0, 0, 3⟩) =
        desiredDir ⟨0, 0, 2⟩ ⟨0, 0, 0⟩ ⟨0, 0, 3⟩ ∧
      slerpFactor 1 = 1 := by
  have h1 : pointerHit ⟨0, 0, 2⟩ ⟨0, 0, 0⟩ ⟨0, 0, 3⟩ ≠ (⟨0, 0, 0⟩ : V3) := by
    rw [pointerHit_wit]
    intro h
    rw [V3.mk.injEq] at h
    exact absurd h.2.2 (by norm_num)
  have h2 : ¬ dotV cornerVec (desiredDir ⟨0, 0, 2⟩ ⟨0, 0, 0⟩ ⟨0, 0, 3⟩) + 1 <
      numberEpsilon := by
    rw [desiredDir_wit, corner_dot_z]
    unfold numberEpsilon
    have hnn : 0 ≤ 1 / Real.sqrt 3 := by positivity
    intro hcon
    linarith
  have h := target_quat_maps_corner_to_pointer ⟨0, 0, 2⟩ ⟨0, 0, 0⟩ ⟨0, 0, 3⟩
    h1 h2
  exact ⟨⟨h1, h2⟩, h.1, (h.2 1).2.2 (by norm_num)⟩

end Vartalap
